import Mathlib

/-!
# Connection router snapshot and selector (`internal/router/connections_state.go`)

A shallow embedding of the connection-state snapshot of the router and of the
tiered selector `Connection`, followed by theorems about it.

Modelling conventions.

* A Go run-time panic is an `Except.error` carrying a `Panic`.
* A value of the interface type `conn.Conn` that may be nil is an `Option Conn`
  (`none` is the nil interface).  The elements of the input slice are taken to
  be real connections, so slices are `List Conn`.
* The health state of a connection is read at one point in time; a `Conn`
  carries the state that `GetState()` reports during the call.
* `uint32` node IDs and `int` counters are natural numbers: the code compares
  node IDs and increments counters by one per probe, so no wrap-around occurs.
* The random source is an explicit state threaded through the selector.
-/

namespace Router

/-! ## Data model -/

/-- Modelled from the spec: the health states `conn.State` of a connection
(the declaration lives in `internal/conn`).  `Other` stands for any value that
is none of the named constants. -/
inductive State where
  | Unknown
  | Created
  | Online
  | Banned
  | Offline
  | Other (code : Nat)
  deriving DecidableEq, Repr

/-- Modelled from the spec: the identity record `endpoint.Endpoint` of a cluster
node.  Only `NodeID()` is read by the router; `location` is the locality tag
that prefer predicates usually look at. -/
structure Endpoint where
  nodeID : Nat
  location : Nat
  deriving DecidableEq, Repr

/-- Modelled from the spec: a non-nil `conn.Conn` handle, observed through
`Endpoint()` and `GetState()`. -/
structure Conn where
  endpoint : Endpoint
  state : State
  deriving DecidableEq, Repr

/-- Go run-time panics that the embedded code can raise. -/
inductive Panic where
  | nilDereference
  | indexOutOfRange
  deriving DecidableEq, Repr

/-- Modelled from the spec: `balancer.PreferConnFunc`, a pure classifier; `none`
is the nil function value. -/
abbrev PreferConnFunc := Option (Conn → Bool)

/-- Modelled from the spec: the per-call context as far as `ContextEndpoint`
reads it, that is the pinned endpoint when one is carried. -/
abbrev Context := Option Endpoint

/-- Modelled from the spec: `ContextEndpoint(ctx)` yields the pinned endpoint and
whether there is one. -/
def ContextEndpoint (ctx : Context) : Option Endpoint := ctx

/-! ## Random source -/

/-- Modelled from the spec: the state of an `xrand.Rand`.  `draws` are the raw
values behind the successive `Int` calls, `swaps` the index pairs behind the
successive `Shuffle` calls.  Every behaviour the contract of the random source
allows is the behaviour of some such state. -/
structure Rand where
  draws : List Nat
  swaps : List (List (Nat × Nat))
  deriving DecidableEq, Repr

/-- Modelled from the spec: `Int(n)` returns an integer in `[0, n)` (for `n > 0`)
and advances the source. -/
def Rand.Int (r : Rand) (n : Nat) : Nat × Rand :=
  match r.draws with
  | [] => (0, r)
  | d :: ds => (d % n, { r with draws := ds })

/-- Runs the `swap` callback of a `Shuffle` on each index pair in turn. -/
def runSwaps {σ : Type} (swap : Nat → Nat → σ → Except Panic σ) :
    List (Nat × Nat) → σ → Except Panic σ
  | [], st => .ok st
  | (i, j) :: rest, st =>
    match swap i j st with
    | .error e => .error e
    | .ok st1 => runSwaps swap rest st1

/-- Modelled from the spec: `Shuffle(n, swap)` invokes `swap(i, j)` for a
sequence of index pairs below `n` and advances the source. -/
def Rand.Shuffle {σ : Type} (r : Rand) (n : Nat)
    (swap : Nat → Nat → σ → Except Panic σ) (st : σ) : Except Panic (σ × Rand) :=
  match r.swaps with
  | [] => .ok (st, r)
  | ps :: pss =>
    match runSwaps swap (ps.map fun p => (p.1 % n, p.2 % n)) st with
    | .error e => .error e
    | .ok st1 => .ok (st1, { r with swaps := pss })

/-! ## Node-ID lookup map -/

/-- A Go `map[uint32]conn.Conn`: `none` is the nil map, otherwise the entries
with pairwise distinct keys. -/
abbrev NodeMap := Option (List (Nat × Conn))

/-- Map read `m[k]`: the zero value (nil interface) when the key is absent or
the map is nil. -/
def NodeMap.get (m : NodeMap) (k : Nat) : Option Conn :=
  match m with
  | none => none
  | some entries => (entries.find? fun p => p.1 == k).map Prod.snd

/-- Map write `m[k] = c` on a non-nil map: replaces the entry of the key. -/
def mapSet (entries : List (Nat × Conn)) (k : Nat) (c : Conn) : List (Nat × Conn) :=
  (k, c) :: entries.filter fun p => p.1 != k

/-- The keys of the map. -/
def NodeMap.keys (m : NodeMap) : List Nat :=
  match m with
  | none => []
  | some entries => entries.map Prod.fst

/-! ## The snapshot -/

/-- The struct `connectionsState`. -/
structure connectionsState where
  PreferCount : Nat
  connByNodeID : NodeMap
  prefer : List Conn
  fallback : List Conn
  lastAttempt : List Conn
  rand : Rand
  deriving Repr

/-- The function `isOkConnection`.  `conn.Conn` is an interface type, and the
method call `c.GetState()` on the nil interface is a run-time panic. -/
def isOkConnection (c : Option Conn) (bannedIsOk : Bool) : Except Panic Bool :=
  match c with
  | none => .error .nilDereference
  | some c =>
    match c.state with
    | .Online => .ok true
    | .Created => .ok true
    | .Offline => .ok true
    | .Banned => .ok bannedIsOk
    | _ => .ok false

/-- One iteration of the loop of `connsToNodeIDMap`. -/
def connsToNodeIDMapStep (res : NodeMap) (c : Conn) : NodeMap :=
  let nodeID := c.endpoint.nodeID
  if nodeID = 0 then res
  else
    match res with
    | none => some (mapSet [] nodeID c)
    | some entries => some (mapSet entries nodeID c)

/-- The function `connsToNodeIDMap`. -/
def connsToNodeIDMap (conns : List Conn) : NodeMap :=
  conns.foldl connsToNodeIDMapStep none

/-- One iteration of the loop of `sortPreferConnections`. -/
def sortPreferStep (preferFunc : Conn → Bool) (allowFallback : Bool)
    (acc : List Conn × List Conn) (c : Conn) : List Conn × List Conn :=
  if preferFunc c then (acc.1 ++ [c], acc.2)
  else if allowFallback then (acc.1, acc.2 ++ [c])
  else acc

/-- The function `sortPreferConnections`. -/
def sortPreferConnections (conns : List Conn) (preferFunc : PreferConnFunc)
    (allowFallback : Bool) : List Conn × List Conn :=
  match preferFunc with
  | none => (conns, [])
  | some f => conns.foldl (sortPreferStep f allowFallback) ([], [])

/-- The constructor `newConnectionsState`; `seed` is the freshly seeded random
source. -/
def newConnectionsState (conns : List Conn) (preferFunc : PreferConnFunc)
    (allowFallback : Bool) (seed : Rand) : connectionsState :=
  let pf := sortPreferConnections conns preferFunc allowFallback
  { PreferCount := pf.1.length
    connByNodeID := connsToNodeIDMap conns
    prefer := pf.1
    fallback := pf.2
    lastAttempt := if allowFallback then conns else pf.1
    rand := seed }

/-- The method `preferConnection`. -/
def preferConnection (s : connectionsState) (ctx : Context) : Except Panic (Option Conn) :=
  match ContextEndpoint ctx with
  | some e =>
    let c := s.connByNodeID.get e.nodeID
    match isOkConnection c true with
    | .error p => .error p
    | .ok true => .ok c
    | .ok false => .ok none
  | none => .ok none

/-- The swap callback handed to `Shuffle`:
`indexes[i], indexes[j] = indexes[j], indexes[i]`. -/
def swapIndexes (i j : Nat) (indexes : List Nat) : Except Panic (List Nat) :=
  match indexes[i]?, indexes[j]? with
  | some a, some b => .ok ((indexes.set i b).set j a)
  | _, _ => .error .indexOutOfRange

/-- The sweep loop of `selectRandomConnection` over the shuffled indexes. -/
def sweep (conns : List Conn) (allowBanned : Bool) :
    List Nat → Nat → Except Panic (Option Conn × Nat)
  | [], failedConns => .ok (none, failedConns)
  | index :: rest, failedConns =>
    match conns[index]? with
    | none => .error .indexOutOfRange
    | some c =>
      match isOkConnection (some c) allowBanned with
      | .error p => .error p
      | .ok true => .ok (some c, 0)
      | .ok false => sweep conns allowBanned rest (failedConns + 1)

/-- The method `selectRandomConnection`; the result carries the random source
as the call leaves it. -/
def selectRandomConnection (s : connectionsState) (conns : List Conn)
    (allowBanned : Bool) : Except Panic (Option Conn × Nat × Rand) :=
  let connCount := conns.length
  if connCount = 0 then .ok (none, 0, s.rand)
  else
    let d := s.rand.Int connCount
    match conns[d.1]? with
    | none => .error .indexOutOfRange
    | some c =>
      match isOkConnection (some c) allowBanned with
      | .error p => .error p
      | .ok true => .ok (some c, 0, d.2)
      | .ok false =>
        match d.2.Shuffle connCount swapIndexes (List.range connCount) with
        | .error p => .error p
        | .ok (indexes, r) =>
          match sweep conns allowBanned indexes 0 with
          | .error p => .error p
          | .ok (c, failedConns) => .ok (c, failedConns, r)

/-- The method `Connection`; the result carries the random source as the call
leaves it. -/
def Connection (s : connectionsState) (ctx : Context) :
    Except Panic (Option Conn × Nat × Rand) :=
  match preferConnection s ctx with
  | .error p => .error p
  | .ok (some c) => .ok (some c, 0, s.rand)
  | .ok none =>
    match selectRandomConnection s s.prefer false with
    | .error p => .error p
    | .ok (some c, tryFailed, r1) => .ok (some c, 0 + tryFailed, r1)
    | .ok (none, tryFailed, r1) =>
      let failedCount := 0 + tryFailed
      match selectRandomConnection { s with rand := r1 } s.fallback false with
      | .error p => .error p
      | .ok (some c, tryFailed2, r2) => .ok (some c, failedCount + tryFailed2, r2)
      | .ok (none, tryFailed2, r2) =>
        let failedCount2 := failedCount + tryFailed2
        match selectRandomConnection { s with rand := r2 } s.lastAttempt true with
        | .error p => .error p
        | .ok (c, _, r3) => .ok (c, failedCount2, r3)

/-! ## Specification vocabulary -/

/-- A connection is usable under `allowBanned`: its state is `Online`, `Created`
or `Offline`, or it is `Banned` and banned connections are allowed. -/
def usable (allowBanned : Bool) (c : Conn) : Bool :=
  match c.state with
  | .Online => true
  | .Created => true
  | .Offline => true
  | .Banned => allowBanned
  | _ => false

/-- A connection is healthy: its state is `Online`, `Created` or `Offline`. -/
def healthy (c : Conn) : Prop :=
  c.state = .Online ∨ c.state = .Created ∨ c.state = .Offline

/-- The connection `C(id, state, pref)` of the scenarios: location 0 is the
preferred one. -/
def C (id : Nat) (st : State) (pref : Bool) : Conn :=
  { endpoint := { nodeID := id, location := if pref then 0 else 1 }, state := st }

/-- The prefer predicate of the scenarios: the connection is in location 0. -/
def preferLocal : Conn → Bool := fun c => c.endpoint.location == 0

/-- A context that pins node `k`. -/
def pin (k : Nat) : Context := some { nodeID := k, location := 0 }

/-- A random source that always draws index 0 and never swaps. -/
def rand0 : Rand := { draws := [], swaps := [] }

/-! ## Auxiliary lemmas: health predicates and the random sweep -/

theorem isOkConnection_some (c : Conn) (b : Bool) :
    isOkConnection (some c) b = .ok (usable b c) := by
  cases c with
  | mk e st => cases st <;> rfl

theorem cons_set_perm (x b : Nat) (xs : List Nat) (j : Nat) (h : xs[j]? = some b) :
    (b :: xs.set j x).Perm (x :: xs) := by
  induction xs generalizing j with
  | nil => simp at h
  | cons y t ih =>
    cases j with
    | zero =>
      simp at h
      subst h
      exact List.Perm.swap x y t
    | succ j =>
      simp at h
      have h1 : (y :: b :: t.set j x).Perm (y :: x :: t) := (ih j h).cons y
      exact (List.Perm.swap y b _).trans (h1.trans (List.Perm.swap x y t))

theorem swapIndexes_perm (i j : Nat) (l l1 : List Nat)
    (h : swapIndexes i j l = .ok l1) : l1.Perm l := by
  unfold swapIndexes at h
  split at h
  · rename_i a b ha hb
    injection h with h
    subst h
    induction l generalizing i j with
    | nil => simp at ha
    | cons x xs ih =>
      cases i with
      | zero =>
        cases j with
        | zero =>
          simp at ha hb
          subst ha
          subst hb
          simp
        | succ j =>
          simp at ha hb
          subst ha
          simpa using cons_set_perm _ _ xs j hb
      | succ i =>
        cases j with
        | zero =>
          simp at ha hb
          subst hb
          simpa using cons_set_perm _ _ xs i ha
        | succ j =>
          simp at ha hb
          simpa using ih i j ha hb
  · exact absurd h (by simp)

theorem swapIndexes_ok (i j : Nat) (l : List Nat) (hi : i < l.length) (hj : j < l.length) :
    ∃ l1, swapIndexes i j l = .ok l1 := by
  unfold swapIndexes
  rw [List.getElem?_eq_getElem hi, List.getElem?_eq_getElem hj]
  exact ⟨_, rfl⟩

theorem runSwaps_perm (ps : List (Nat × Nat)) (l : List Nat)
    (hps : ∀ p ∈ ps, p.1 < l.length ∧ p.2 < l.length) :
    ∃ l1, runSwaps swapIndexes ps l = .ok l1 ∧ l1.Perm l := by
  induction ps generalizing l with
  | nil => exact ⟨l, rfl, List.Perm.refl l⟩
  | cons p rest ih =>
    obtain ⟨i, j⟩ := p
    have hp := hps (i, j) (List.mem_cons_self _ _)
    obtain ⟨l1, h1⟩ := swapIndexes_ok i j l hp.1 hp.2
    have hperm := swapIndexes_perm i j l l1 h1
    have hrest : ∀ p ∈ rest, p.1 < l1.length ∧ p.2 < l1.length := by
      intro p hp
      rw [hperm.length_eq]
      exact hps p (List.mem_cons_of_mem _ hp)
    obtain ⟨l2, h2, hperm2⟩ := ih l1 hrest
    refine ⟨l2, ?_, hperm2.trans hperm⟩
    simp only [runSwaps, h1, h2]

theorem shuffle_range (r : Rand) (n : Nat) (hn : 0 < n) :
    ∃ l1 r1, r.Shuffle n swapIndexes (List.range n) = .ok (l1, r1) ∧
      l1.Perm (List.range n) := by
  unfold Rand.Shuffle
  split
  · exact ⟨_, _, rfl, List.Perm.refl _⟩
  · rename_i ps pss _
    have hps : ∀ p ∈ ps.map (fun p => (p.1 % n, p.2 % n)),
        p.1 < (List.range n).length ∧ p.2 < (List.range n).length := by
      intro p hp
      rw [List.mem_map] at hp
      obtain ⟨q, _, rfl⟩ := hp
      simp only [List.length_range]
      exact ⟨Nat.mod_lt _ hn, Nat.mod_lt _ hn⟩
    obtain ⟨l1, h1, hperm⟩ := runSwaps_perm _ (List.range n) hps
    exact ⟨l1, { r with swaps := pss }, by simp only [h1], hperm⟩

theorem sweep_miss (conns : List Conn) (b : Bool) (idxs : List Nat) (k : Nat)
    (hr : ∀ i ∈ idxs, i < conns.length)
    (hu : ∀ c ∈ conns, usable b c = false) :
    sweep conns b idxs k = .ok (none, k + idxs.length) := by
  induction idxs generalizing k with
  | nil => rfl
  | cons i rest ih =>
    have hi := hr i (List.mem_cons_self _ _)
    have hc := hu conns[i] (List.getElem_mem hi)
    simp only [sweep, List.getElem?_eq_getElem hi, isOkConnection_some, hc]
    rw [ih (k + 1) (fun j hj => hr j (List.mem_cons_of_mem _ hj))]
    simp only [List.length_cons]
    congr 2
    omega

theorem sweep_hit (conns : List Conn) (b : Bool) (idxs : List Nat) (k : Nat)
    (hr : ∀ i ∈ idxs, i < conns.length)
    (hu : ∃ i ∈ idxs, ∃ c, conns[i]? = some c ∧ usable b c = true) :
    ∃ c, sweep conns b idxs k = .ok (some c, 0) ∧ c ∈ conns ∧ usable b c = true := by
  induction idxs generalizing k with
  | nil =>
    obtain ⟨i, hi, _⟩ := hu
    simp at hi
  | cons i rest ih =>
    have hi := hr i (List.mem_cons_self _ _)
    cases hc : usable b conns[i] with
    | true =>
      refine ⟨conns[i], ?_, List.getElem_mem hi, hc⟩
      simp only [sweep, List.getElem?_eq_getElem hi, isOkConnection_some, hc]
    | false =>
      have hu1 : ∃ j ∈ rest, ∃ c, conns[j]? = some c ∧ usable b c = true := by
        obtain ⟨j, hj, c, hjc, hcu⟩ := hu
        rcases List.mem_cons.mp hj with rfl | hj1
        · rw [List.getElem?_eq_getElem hi] at hjc
          injection hjc with hjc
          rw [hjc, hcu] at hc
          exact absurd hc (by simp)
        · exact ⟨j, hj1, c, hjc, hcu⟩
      obtain ⟨c, h1, h2, h3⟩ := ih (k + 1) (fun j hj => hr j (List.mem_cons_of_mem _ hj)) hu1
      refine ⟨c, ?_, h2, h3⟩
      simp only [sweep, List.getElem?_eq_getElem hi, isOkConnection_some, hc, h1]


theorem rand_Int_lt (r : Rand) (n : Nat) (hn : 0 < n) : (r.Int n).1 < n := by
  unfold Rand.Int
  split
  · exact hn
  · exact Nat.mod_lt _ hn

theorem select_miss (s : connectionsState) (conns : List Conn) (b : Bool)
    (hne : conns ≠ []) (hu : ∀ c ∈ conns, usable b c = false) :
    ∃ r1, selectRandomConnection s conns b = .ok (none, conns.length, r1) := by
  have hn : 0 < conns.length := List.length_pos.mpr hne
  have hn0 : conns.length ≠ 0 := Nat.pos_iff_ne_zero.mp hn
  have hd := rand_Int_lt s.rand conns.length hn
  obtain ⟨idxs, r1, hsh, hperm⟩ := shuffle_range (s.rand.Int conns.length).2 conns.length hn
  have hr : ∀ i ∈ idxs, i < conns.length := by
    intro i hi
    exact List.mem_range.mp (hperm.mem_iff.mp hi)
  have hlen : idxs.length = conns.length := by
    rw [hperm.length_eq, List.length_range]
  refine ⟨r1, ?_⟩
  unfold selectRandomConnection
  simp only [hn0, if_false, List.getElem?_eq_getElem hd, isOkConnection_some,
    hu _ (List.getElem_mem hd), hsh, sweep_miss conns b idxs 0 hr hu, hlen, Nat.zero_add]

theorem select_hit (s : connectionsState) (conns : List Conn) (b : Bool)
    (hu : ∃ c ∈ conns, usable b c = true) :
    ∃ c r1, selectRandomConnection s conns b = .ok (some c, 0, r1) ∧
      c ∈ conns ∧ usable b c = true := by
  have hne : conns ≠ [] := by
    obtain ⟨c, hc, _⟩ := hu
    exact List.ne_nil_of_mem hc
  have hn : 0 < conns.length := List.length_pos.mpr hne
  have hn0 : conns.length ≠ 0 := Nat.pos_iff_ne_zero.mp hn
  have hd := rand_Int_lt s.rand conns.length hn
  cases hfast : usable b conns[(s.rand.Int conns.length).1] with
  | true =>
    refine ⟨_, (s.rand.Int conns.length).2, ?_, List.getElem_mem hd, hfast⟩
    unfold selectRandomConnection
    simp only [hn0, if_false, List.getElem?_eq_getElem hd, isOkConnection_some, hfast]
  | false =>
    obtain ⟨idxs, r1, hsh, hperm⟩ :=
      shuffle_range (s.rand.Int conns.length).2 conns.length hn
    have hr : ∀ i ∈ idxs, i < conns.length := by
      intro i hi
      exact List.mem_range.mp (hperm.mem_iff.mp hi)
    have hex : ∃ i ∈ idxs, ∃ c, conns[i]? = some c ∧ usable b c = true := by
      obtain ⟨c, hc, hcu⟩ := hu
      obtain ⟨i, hi, hic⟩ := List.getElem_of_mem hc
      refine ⟨i, hperm.mem_iff.mpr (List.mem_range.mpr hi), c, ?_, hcu⟩
      rw [List.getElem?_eq_getElem hi, hic]
    obtain ⟨c, hsw, hmem, hcu⟩ := sweep_hit conns b idxs 0 hr hex
    refine ⟨c, r1, ?_, hmem, hcu⟩
    unfold selectRandomConnection
    simp only [hn0, if_false, List.getElem?_eq_getElem hd, isOkConnection_some, hfast,
      hsh, hsw]


theorem select_total (s : connectionsState) (conns : List Conn) (b : Bool) :
    ∃ oc fc r1, selectRandomConnection s conns b = .ok (oc, fc, r1) ∧
      ((∃ c, oc = some c ∧ fc = 0 ∧ c ∈ conns ∧ usable b c = true) ∨
       (oc = none ∧ fc = conns.length ∧ ∀ c ∈ conns, usable b c = false)) := by
  by_cases hu : ∃ c ∈ conns, usable b c = true
  · obtain ⟨c, r1, h, hmem, hcu⟩ := select_hit s conns b hu
    exact ⟨some c, 0, r1, h, Or.inl ⟨c, rfl, rfl, hmem, hcu⟩⟩
  · have hall : ∀ c ∈ conns, usable b c = false := by
      intro c hc
      cases hcu : usable b c with
      | false => rfl
      | true => exact absurd ⟨c, hc, hcu⟩ hu
    cases conns with
    | nil => exact ⟨none, 0, s.rand, rfl, Or.inr ⟨rfl, rfl, hall⟩⟩
    | cons x xs =>
      obtain ⟨r1, h⟩ := select_miss s (x :: xs) b (List.cons_ne_nil x xs) hall
      exact ⟨none, _, r1, h, Or.inr ⟨rfl, rfl, hall⟩⟩

theorem preferConnection_none (s : connectionsState) :
    preferConnection s none = .ok none := rfl

theorem connection_cases (s : connectionsState) :
    ∃ oc fc r1, Connection s none = .ok (oc, fc, r1) ∧
      ((∃ c, oc = some c ∧ fc = 0 ∧ c ∈ s.prefer ∧ usable false c = true) ∨
       ((∀ c ∈ s.prefer, usable false c = false) ∧
          ∃ c, oc = some c ∧ fc = s.prefer.length ∧ c ∈ s.fallback ∧
            usable false c = true) ∨
       ((∀ c ∈ s.prefer, usable false c = false) ∧
          (∀ c ∈ s.fallback, usable false c = false) ∧
          fc = s.prefer.length + s.fallback.length ∧
          ((∃ c, oc = some c ∧ c ∈ s.lastAttempt ∧ usable true c = true) ∨
           (oc = none ∧ ∀ c ∈ s.lastAttempt, usable true c = false)))) := by
  obtain ⟨oc1, fc1, r1, h1, hc1⟩ := select_total s s.prefer false
  rcases hc1 with ⟨c, rfl, rfl, hmem, hcu⟩ | ⟨rfl, rfl, hall1⟩
  · refine ⟨some c, 0, r1, ?_, Or.inl ⟨c, rfl, rfl, hmem, hcu⟩⟩
    simp only [Connection, preferConnection_none, h1]
  · obtain ⟨oc2, fc2, r2, h2, hc2⟩ :=
      select_total { s with rand := r1 } s.fallback false
    rcases hc2 with ⟨c, rfl, rfl, hmem, hcu⟩ | ⟨rfl, rfl, hall2⟩
    · refine ⟨some c, s.prefer.length, r2, ?_, Or.inr (Or.inl ⟨hall1, c, rfl, rfl, hmem, hcu⟩)⟩
      simp only [Connection, preferConnection_none, h1, h2, Nat.zero_add, Nat.add_zero]
    · obtain ⟨oc3, fc3, r3, h3, hc3⟩ :=
        select_total { s with rand := r2 } s.lastAttempt true
      refine ⟨oc3, s.prefer.length + s.fallback.length, r3, ?_,
        Or.inr (Or.inr ⟨hall1, hall2, rfl, ?_⟩)⟩
      · simp only [Connection, preferConnection_none, h1, h2, h3, Nat.zero_add]
      · rcases hc3 with ⟨c, rfl, _, hmem, hcu⟩ | ⟨rfl, _, hall3⟩
        · exact Or.inl ⟨c, rfl, hmem, hcu⟩
        · exact Or.inr ⟨rfl, hall3⟩

/-! ## Auxiliary lemmas: partition and node-ID map -/

theorem sortPrefer_foldl (f : Conn → Bool) (fb : Bool) (conns p q : List Conn) :
    conns.foldl (sortPreferStep f fb) (p, q) =
      (p ++ conns.filter f,
       q ++ if fb then conns.filter (fun c => !f c) else []) := by
  induction conns generalizing p q with
  | nil => cases fb <;> simp
  | cons x xs ih =>
    rw [List.foldl_cons]
    cases hx : f x <;> cases fb <;> simp [sortPreferStep, hx, ih]

theorem sortPrefer_some (f : Conn → Bool) (fb : Bool) (conns : List Conn) :
    sortPreferConnections conns (some f) fb =
      (conns.filter f, if fb then conns.filter (fun c => !f c) else []) := by
  simp only [sortPreferConnections, sortPrefer_foldl, List.nil_append]

theorem mapSet_get (entries : List (Nat × Conn)) (k1 k : Nat) (c : Conn) :
    NodeMap.get (some (mapSet entries k1 c)) k =
      if k1 = k then some c else NodeMap.get (some entries) k := by
  by_cases h : k1 = k
  · subst h
    simp [NodeMap.get, mapSet]
  · have hb : (k1 == k) = false := by simpa using h
    simp only [NodeMap.get, mapSet, List.find?_cons, hb, h, if_false]
    congr 1
    induction entries with
    | nil => rfl
    | cons p rest ih =>
      obtain ⟨pk, pc⟩ := p
      by_cases hp : pk = k1
      · have hpk : (pk == k) = false := by rw [hp]; exact hb
        have hne : (pk != k1) = false := by simp [hp]
        rw [List.filter_cons, List.find?_cons]
        simp only [hne, hpk]
        exact ih
      · have hne : (pk != k1) = true := by simp [hp]
        rw [List.filter_cons]
        simp only [hne, if_true]
        rw [List.find?_cons, List.find?_cons, ih]

theorem step_get (m : NodeMap) (c : Conn) (k : Nat) :
    (connsToNodeIDMapStep m c).get k =
      if c.endpoint.nodeID ≠ 0 ∧ c.endpoint.nodeID = k then some c else m.get k := by
  unfold connsToNodeIDMapStep
  by_cases h0 : c.endpoint.nodeID = 0
  · simp [h0]
  · cases m with
    | none =>
      simp only [h0, if_false, mapSet_get]
      simp [NodeMap.get, h0]
    | some entries =>
      simp only [h0, if_false, mapSet_get]
      simp [h0]

theorem step_keys (m : NodeMap) (c : Conn) (k : Nat)
    (h : k ∈ (connsToNodeIDMapStep m c).keys) :
    k ∈ m.keys ∨ (k = c.endpoint.nodeID ∧ k ≠ 0) := by
  unfold connsToNodeIDMapStep at h
  by_cases h0 : c.endpoint.nodeID = 0
  · simp only [h0, if_true] at h
    exact Or.inl h
  · cases m with
    | none =>
      simp only [h0, if_false, NodeMap.keys, mapSet, List.filter_nil, List.map_cons,
        List.map_nil, List.mem_singleton] at h
      exact Or.inr ⟨h, h ▸ h0⟩
    | some entries =>
      simp only [h0, if_false, NodeMap.keys, mapSet, List.map_cons, List.mem_cons,
        List.mem_map, List.mem_filter] at h
      rcases h with h | ⟨p, ⟨hp, _⟩, rfl⟩
      · exact Or.inr ⟨h, h ▸ h0⟩
      · exact Or.inl (by
          simp only [NodeMap.keys, List.mem_map]
          exact ⟨p, hp, rfl⟩)

theorem key_of_get (m : NodeMap) (k : Nat) (c : Conn) (h : m.get k = some c) :
    k ∈ m.keys := by
  cases m with
  | none => simp [NodeMap.get] at h
  | some entries =>
    simp only [NodeMap.get, Option.map_eq_some'] at h
    obtain ⟨p, hp, _⟩ := h
    have hmem := List.mem_of_find?_eq_some hp
    have hk := List.find?_some hp
    simp only [NodeMap.keys, List.mem_map]
    exact ⟨p, hmem, by simpa using hk⟩

theorem foldl_keys (conns : List Conn) (m : NodeMap) (k : Nat)
    (h : k ∈ (conns.foldl connsToNodeIDMapStep m).keys) :
    k ∈ m.keys ∨ k ≠ 0 := by
  induction conns generalizing m with
  | nil => exact Or.inl h
  | cons x xs ih =>
    rw [List.foldl_cons] at h
    rcases ih _ h with h1 | h1
    · rcases step_keys m x k h1 with h2 | h2
      · exact Or.inl h2
      · exact Or.inr h2.2
    · exact Or.inr h1

theorem foldl_get (conns : List Conn) (m : NodeMap) (k : Nat) :
    (conns.foldl connsToNodeIDMapStep m).get k =
      match conns.reverse.find? (fun c => c.endpoint.nodeID == k) with
      | some c => if k = 0 then m.get k else some c
      | none => m.get k := by
  induction conns generalizing m with
  | nil => rfl
  | cons x xs ih =>
    rw [List.foldl_cons, ih, List.reverse_cons, List.find?_append]
    cases hf : xs.reverse.find? (fun c => c.endpoint.nodeID == k) with
    | some c =>
      simp only [Option.or_some]
      by_cases hk : k = 0
      · have hc := List.find?_some hf
        simp only [beq_iff_eq] at hc
        simp only [hk, if_true, step_get]
        simp [hk]
      · simp [hk]
    | none =>
      simp only [Option.none_or, List.find?_cons, List.find?_nil, step_get]
      by_cases hx : x.endpoint.nodeID = k
      · subst hx
        simp
      · have hb : (x.endpoint.nodeID == k) = false := by simpa using hx
        simp [hx, hb]

/-! ## The selector and the snapshot: main results -/

theorem usable_false_iff (c : Conn) : usable false c = true ↔ healthy c := by
  cases c with
  | mk e st => cases st <;> simp [usable, healthy]

theorem usable_true_iff (c : Conn) :
    usable true c = true ↔ healthy c ∨ c.state = .Banned := by
  cases c with
  | mk e st => cases st <;> simp [usable, healthy]

theorem connection_of_pinned (s : connectionsState) (ctx : Context) (c : Conn)
    (h : preferConnection s ctx = .ok (some c)) :
    Connection s ctx = .ok (some c, 0, s.rand) := by
  simp only [Connection, h]

theorem connection_of_unpinned (s : connectionsState) (ctx : Context)
    (h : preferConnection s ctx = .ok none) :
    Connection s ctx = Connection s none := by
  simp only [Connection, h, preferConnection_none]

theorem preferConnection_hit (s : connectionsState) (e : Endpoint) (c : Conn)
    (hget : s.connByNodeID.get e.nodeID = some c) (hu : usable true c = true) :
    preferConnection s (some e) = .ok (some c) := by
  simp only [preferConnection, ContextEndpoint, hget, isOkConnection_some, hu]

theorem preferConnection_cases (s : connectionsState) (e : Endpoint) :
    (s.connByNodeID.get e.nodeID = none ∧
        preferConnection s (some e) = .error .nilDereference) ∨
    (∃ c, s.connByNodeID.get e.nodeID = some c ∧ usable true c = true ∧
        preferConnection s (some e) = .ok (some c)) ∨
    (∃ c, s.connByNodeID.get e.nodeID = some c ∧ usable true c = false ∧
        preferConnection s (some e) = .ok none) := by
  cases hget : s.connByNodeID.get e.nodeID with
  | none =>
    refine Or.inl ⟨rfl, ?_⟩
    simp only [preferConnection, ContextEndpoint, hget, isOkConnection]
  | some c =>
    cases hu : usable true c with
    | true => exact Or.inr (Or.inl ⟨c, rfl, hu, preferConnection_hit s e c hget hu⟩)
    | false =>
      refine Or.inr (Or.inr ⟨c, rfl, hu, ?_⟩)
      simp only [preferConnection, ContextEndpoint, hget, isOkConnection_some, hu]

/-- Every pinned miss panics: when the pinned node ID has no entry in
`connByNodeID` (absent key or nil map), `Connection` dereferences the nil
interface. -/
theorem pinned_miss_nilDereference (s : connectionsState) (e : Endpoint)
    (h : s.connByNodeID.get e.nodeID = none) :
    Connection s (some e) = .error .nilDereference := by
  simp only [Connection, preferConnection, ContextEndpoint, h, isOkConnection]

/-- C1 (pinned hit).  When the context pins an endpoint whose node ID resolves in
`connByNodeID` to a connection `c` in state `Online`, `Created`, `Offline` or
`Banned`, `Connection` returns exactly `c` with `failedCount = 0`.  The snapshot
`s` is arbitrary, so the result does not depend on `prefer`, `fallback`,
`lastAttempt` or the random source, and the random source comes back untouched
(`s.rand`): it is not consulted. -/
theorem pinned_hit (s : connectionsState) (e : Endpoint) (c : Conn)
    (hget : s.connByNodeID.get e.nodeID = some c)
    (hst : c.state = .Online ∨ c.state = .Created ∨ c.state = .Offline ∨
      c.state = .Banned) :
    Connection s (some e) = .ok (some c, 0, s.rand) := by
  apply connection_of_pinned
  apply preferConnection_hit s e c hget
  rw [usable_true_iff]
  unfold healthy
  tauto

/-- Witness for C1: the pinned-override scenario, node 7 pinned on
`[C(7,Banned,false), C(1,Online,true)]`. -/
theorem pinned_hit_witness :
    (newConnectionsState [C 7 .Banned false, C 1 .Online true] (some preferLocal) true
        rand0).connByNodeID.get 7 = some (C 7 .Banned false) ∧
    Connection
        (newConnectionsState [C 7 .Banned false, C 1 .Online true] (some preferLocal) true
          rand0) (pin 7) = .ok (some (C 7 .Banned false), 0, rand0) :=
  ⟨rfl, pinned_hit _ { nodeID := 7, location := 0 } (C 7 .Banned false) rfl
    (Or.inr (Or.inr (Or.inr rfl)))⟩

/-- C2 (pinned miss, the code at the failing input).  For the snapshot
`[C(1,Online,true)]` and a context that pins node 99, the lookup yields the nil
interface and `Connection` panics with a nil dereference in `isOkConnection`,
whereas the same snapshot without a pinned endpoint returns `(C(1), 0)`. -/
theorem pinned_miss_panics :
    (newConnectionsState [C 1 .Online true] (some preferLocal) true rand0).connByNodeID.get 99
        = none ∧
    Connection (newConnectionsState [C 1 .Online true] (some preferLocal) true rand0) (pin 99)
        = .error .nilDereference ∧
    Connection (newConnectionsState [C 1 .Online true] (some preferLocal) true rand0) none
        = .ok (some (C 1 .Online true), 0, rand0) :=
  ⟨rfl, rfl, rfl⟩

/-- C3 (preferred tier wins).  Without a pinned endpoint, when `prefer` holds a
connection in state `Online`, `Created` or `Offline`, then for every state `r` of
the random source `Connection` returns a connection that is an element of
`prefer` and is in one of these states, with `failedCount = 0`. -/
theorem preferred_tier_wins (s : connectionsState) (r : Rand)
    (h : ∃ c ∈ s.prefer, healthy c) :
    ∃ c r1, Connection { s with rand := r } none = .ok (some c, 0, r1) ∧
      c ∈ s.prefer ∧ healthy c := by
  obtain ⟨oc, fc, r1, hres, hcases⟩ := connection_cases { s with rand := r }
  rcases hcases with ⟨c, rfl, rfl, hmem, hu⟩ | ⟨hall, _⟩ | ⟨hall, _⟩
  · exact ⟨c, r1, hres, hmem, (usable_false_iff c).mp hu⟩
  · obtain ⟨c, hc, hh⟩ := h
    have := hall c hc
    rw [(usable_false_iff c).mpr hh] at this
    exact absurd this (by simp)
  · obtain ⟨c, hc, hh⟩ := h
    have := hall c hc
    rw [(usable_false_iff c).mpr hh] at this
    exact absurd this (by simp)

/-- Witness for C3: the healthy preferred path
`[C(1,Online,true), C(2,Online,true), C(3,Online,false)]` with fallback allowed. -/
theorem preferred_tier_wins_witness :
    (newConnectionsState [C 1 .Online true, C 2 .Online true, C 3 .Online false]
        (some preferLocal) true rand0).prefer = [C 1 .Online true, C 2 .Online true] ∧
    ∃ c r1,
      Connection
        { newConnectionsState [C 1 .Online true, C 2 .Online true, C 3 .Online false]
            (some preferLocal) true rand0 with
          rand := { draws := [5, 3], swaps := [[(0, 1)]] } } none = .ok (some c, 0, r1) ∧
      c ∈ (newConnectionsState [C 1 .Online true, C 2 .Online true, C 3 .Online false]
        (some preferLocal) true rand0).prefer ∧ healthy c :=
  ⟨rfl, preferred_tier_wins _ _ ⟨C 1 .Online true, List.mem_cons_self _ _, Or.inl rfl⟩⟩


theorem lastAttempt_subset (conns : List Conn) (pref : PreferConnFunc) (fb : Bool)
    (seed : Rand) (c : Conn)
    (h : c ∈ (newConnectionsState conns pref fb seed).lastAttempt) :
    c ∈ (newConnectionsState conns pref fb seed).prefer ∨
      c ∈ (newConnectionsState conns pref fb seed).fallback := by
  cases fb with
  | false => exact Or.inl h
  | true =>
    cases pref with
    | none => exact Or.inl h
    | some f =>
      have hc : c ∈ conns := h
      simp only [newConnectionsState, sortPrefer_some, if_true, List.mem_filter]
      cases hf : f c with
      | true => exact Or.inl ⟨hc, rfl⟩
      | false => exact Or.inr ⟨hc, rfl⟩

/-- C4 (fallback tier).  Without a pinned endpoint, when no connection of
`prefer` is `Online`, `Created` or `Offline` but some connection of `fallback`
is, then for every state `r` of the random source `Connection` returns a
connection that is an element of `fallback` and is in one of these states, and
`failedCount ≥ 1` whenever `prefer` is non-empty. -/
theorem fallback_tier (s : connectionsState) (r : Rand)
    (hp : ∀ c ∈ s.prefer, ¬ healthy c) (hf : ∃ c ∈ s.fallback, healthy c) :
    ∃ c fc r1, Connection { s with rand := r } none = .ok (some c, fc, r1) ∧
      c ∈ s.fallback ∧ healthy c ∧ (s.prefer ≠ [] → 1 ≤ fc) := by
  obtain ⟨oc, fc, r1, hres, hcases⟩ := connection_cases { s with rand := r }
  rcases hcases with ⟨c, _, _, hmem, hu⟩ | ⟨_, c, rfl, rfl, hmem, hu⟩ | ⟨_, hall, _⟩
  · exact absurd ((usable_false_iff c).mp hu) (hp c hmem)
  · refine ⟨c, _, r1, hres, hmem, (usable_false_iff c).mp hu, ?_⟩
    intro hne
    exact List.length_pos.mpr hne
  · obtain ⟨c, hc, hh⟩ := hf
    have := hall c hc
    rw [(usable_false_iff c).mpr hh] at this
    exact absurd this (by simp)

/-- Witness for C4: preferred all banned, fallback healthy,
`[C(1,Banned,true), C(2,Online,false)]`. -/
theorem fallback_tier_witness :
    ∃ c fc r1,
      Connection
        { newConnectionsState [C 1 .Banned true, C 2 .Online false] (some preferLocal) true
            rand0 with rand := { draws := [7], swaps := [[(0, 0)], [(1, 0)]] } } none
        = .ok (some c, fc, r1) ∧
      c ∈ (newConnectionsState [C 1 .Banned true, C 2 .Online false] (some preferLocal) true
        rand0).fallback ∧ healthy c ∧
      ((newConnectionsState [C 1 .Banned true, C 2 .Online false] (some preferLocal) true
        rand0).prefer ≠ [] → 1 ≤ fc) :=
  fallback_tier _ _
    (by
      intro c hc
      have hc1 : c ∈ [C 1 .Banned true] := hc
      rw [List.mem_singleton] at hc1
      subst hc1
      simp [healthy, C])
    ⟨C 2 .Online false, List.mem_cons_self _ _, Or.inl rfl⟩

/-- C5 (last-attempt tier).  For a snapshot built by `newConnectionsState` (with
any seed of the random source) and no pinned endpoint: when no connection of
`prefer` or `fallback` is `Online`, `Created` or `Offline` but `lastAttempt`
holds a `Banned` connection, `Connection` returns a connection (not none), and it
is a `Banned` element of `lastAttempt`. -/
theorem last_attempt_tier (conns : List Conn) (pref : PreferConnFunc) (fb : Bool)
    (seed : Rand)
    (hp : ∀ c ∈ (newConnectionsState conns pref fb seed).prefer, ¬ healthy c)
    (hf : ∀ c ∈ (newConnectionsState conns pref fb seed).fallback, ¬ healthy c)
    (hl : ∃ c ∈ (newConnectionsState conns pref fb seed).lastAttempt, c.state = .Banned) :
    ∃ c fc r1, Connection (newConnectionsState conns pref fb seed) none
        = .ok (some c, fc, r1) ∧
      c ∈ (newConnectionsState conns pref fb seed).lastAttempt ∧ c.state = .Banned := by
  obtain ⟨oc, fc, r1, hres, hcases⟩ := connection_cases (newConnectionsState conns pref fb seed)
  rcases hcases with ⟨c, _, _, hmem, hu⟩ | ⟨_, c, _, _, hmem, hu⟩ | ⟨_, _, _, hlast⟩
  · exact absurd ((usable_false_iff c).mp hu) (hp c hmem)
  · exact absurd ((usable_false_iff c).mp hu) (hf c hmem)
  · rcases hlast with ⟨c, rfl, hmem, hu⟩ | ⟨_, hall⟩
    · refine ⟨c, fc, r1, hres, hmem, ?_⟩
      rcases (usable_true_iff c).mp hu with hh | hb
      · rcases lastAttempt_subset conns pref fb seed c hmem with h1 | h1
        · exact absurd hh (hp c h1)
        · exact absurd hh (hf c h1)
      · exact hb
    · obtain ⟨c, hc, hb⟩ := hl
      have := hall c hc
      rw [(usable_true_iff c).mpr (Or.inr hb)] at this
      exact absurd this (by simp)

/-- Witness for C5: everything banned, fallback allowed,
`[C(1,Banned,true), C(2,Banned,false)]`. -/
theorem last_attempt_tier_witness :
    ∃ c fc r1,
      Connection
        (newConnectionsState [C 1 .Banned true, C 2 .Banned false] (some preferLocal) true
          { draws := [0, 0, 1], swaps := [[(0, 0)], [], [(1, 0)]] }) none
        = .ok (some c, fc, r1) ∧
      c ∈ (newConnectionsState [C 1 .Banned true, C 2 .Banned false] (some preferLocal) true
          { draws := [0, 0, 1], swaps := [[(0, 0)], [], [(1, 0)]] }).lastAttempt ∧
      c.state = .Banned :=
  last_attempt_tier _ _ _ _
    (by
      intro c hc
      have hc1 : c ∈ [C 1 .Banned true] := hc
      rw [List.mem_singleton] at hc1
      subst hc1
      simp [healthy, C])
    (by
      intro c hc
      have hc1 : c ∈ [C 2 .Banned false] := hc
      rw [List.mem_singleton] at hc1
      subst hc1
      simp [healthy, C])
    ⟨C 1 .Banned true, List.mem_cons_self _ _, rfl⟩


theorem get_sound (conns : List Conn) (k : Nat) (c : Conn)
    (h : (connsToNodeIDMap conns).get k = some c) :
    c ∈ conns ∧ c.endpoint.nodeID = k ∧ k ≠ 0 := by
  unfold connsToNodeIDMap at h
  rw [foldl_get] at h
  cases hf : conns.reverse.find? (fun c => c.endpoint.nodeID == k) with
  | none => simp [hf, NodeMap.get] at h
  | some d =>
    simp only [hf] at h
    by_cases hk : k = 0
    · simp [hk, NodeMap.get] at h
    · simp only [hk, if_false, Option.some.injEq] at h
      subst h
      have hmem := List.mem_of_find?_eq_some hf
      have hkey := List.find?_some hf
      exact ⟨List.mem_reverse.mp hmem, by simpa using hkey, hk⟩

theorem get_last (pre post : List Conn) (c : Conn) (h0 : c.endpoint.nodeID ≠ 0)
    (hpost : ∀ d ∈ post, d.endpoint.nodeID ≠ c.endpoint.nodeID) :
    (connsToNodeIDMap (pre ++ c :: post)).get c.endpoint.nodeID = some c := by
  unfold connsToNodeIDMap
  rw [foldl_get]
  have hnone : post.reverse.find? (fun d => d.endpoint.nodeID == c.endpoint.nodeID) = none := by
    rw [List.find?_eq_none]
    intro d hd
    have := hpost d (List.mem_reverse.mp hd)
    simpa using this
  simp [List.find?_append, hnone, h0]

/-- C6, counterexample to the claim as stated.  With `allowFallback = false` and
the predicate `preferLocal`, the non-preferred connection `C(7,Online,false)` is
still present in the node-ID lookup of the snapshot, and `Connection` returns it
for a context that pins node 7. -/
theorem strict_locality_counterexample :
    preferLocal (C 7 .Online false) = false ∧
    (newConnectionsState [C 7 .Online false] (some preferLocal) false rand0).connByNodeID.get 7
        = some (C 7 .Online false) ∧
    Connection (newConnectionsState [C 7 .Online false] (some preferLocal) false rand0) (pin 7)
        = .ok (some (C 7 .Online false), 0, rand0) :=
  ⟨rfl, rfl, rfl⟩

/-- C6, amended (strict locality when fallback is disabled).  For a snapshot built
with a prefer predicate `f` and `allowFallback = false`: every connection of
`prefer` and of `lastAttempt` satisfies `f`, `fallback` is empty, and without a
pinned endpoint `Connection` returns, for every seed of the random source, a
result whose connection (if any) satisfies `f`.  With a pinned endpoint, a
connection that `Connection` returns is a connection of `conns` that satisfies
`f` or is exactly the entry that the node-ID lookup (built from all of `conns`)
holds for the pinned node ID, that is `connByNodeID[e.NodeID()] = c`. -/
theorem strict_locality (conns : List Conn) (f : Conn → Bool) (seed : Rand) :
    (∀ c ∈ (newConnectionsState conns (some f) false seed).prefer, f c = true) ∧
    (newConnectionsState conns (some f) false seed).fallback = [] ∧
    (∀ c ∈ (newConnectionsState conns (some f) false seed).lastAttempt, f c = true) ∧
    (∃ oc fc r1, Connection (newConnectionsState conns (some f) false seed) none
        = .ok (oc, fc, r1) ∧ ∀ c, oc = some c → f c = true ∧ c ∈ conns) ∧
    (∀ e c fc r1, Connection (newConnectionsState conns (some f) false seed) (some e)
        = .ok (some c, fc, r1) →
      c ∈ conns ∧
        (f c = true ∨
          ((newConnectionsState conns (some f) false seed).connByNodeID.get e.nodeID
              = some c ∧ c.endpoint.nodeID = e.nodeID))) := by
  have hpre : ∀ c ∈ (newConnectionsState conns (some f) false seed).prefer,
      f c = true ∧ c ∈ conns := by
    intro c hc
    simp only [newConnectionsState, sortPrefer_some, List.mem_filter] at hc
    exact ⟨hc.2, hc.1⟩
  have hfb : (newConnectionsState conns (some f) false seed).fallback = [] := by
    simp [newConnectionsState, sortPrefer_some]
  have hla : ∀ c ∈ (newConnectionsState conns (some f) false seed).lastAttempt,
      f c = true ∧ c ∈ conns := fun c hc => hpre c hc
  have htiers : ∃ oc fc r1, Connection (newConnectionsState conns (some f) false seed) none
      = .ok (oc, fc, r1) ∧ ∀ c, oc = some c → f c = true ∧ c ∈ conns := by
    obtain ⟨oc, fc, r1, hres, hcases⟩ :=
      connection_cases (newConnectionsState conns (some f) false seed)
    refine ⟨oc, fc, r1, hres, ?_⟩
    intro c hoc
    rcases hcases with ⟨d, rfl, _, hmem, _⟩ | ⟨_, d, rfl, _, hmem, _⟩ | ⟨_, _, _, hlast⟩
    · injection hoc with hoc
      subst hoc
      exact hpre _ hmem
    · rw [hfb] at hmem
      simp at hmem
    · rcases hlast with ⟨d, rfl, hmem, _⟩ | ⟨rfl, _⟩
      · injection hoc with hoc
        subst hoc
        exact hla _ hmem
      · simp at hoc
  refine ⟨fun c hc => (hpre c hc).1, hfb, fun c hc => (hla c hc).1, htiers, ?_⟩
  intro e c fc r1 hres
  rcases preferConnection_cases (newConnectionsState conns (some f) false seed) e with
    ⟨_, hpc⟩ | ⟨d, hget, _, hpc⟩ | ⟨d, _, _, hpc⟩
  · simp [Connection, hpc] at hres
  · rw [connection_of_pinned _ _ d hpc] at hres
    simp only [Except.ok.injEq, Prod.mk.injEq, Option.some.injEq] at hres
    obtain ⟨hdc, _, _⟩ := hres
    subst hdc
    have hs := get_sound conns e.nodeID _ hget
    exact ⟨hs.1, Or.inr ⟨hget, hs.2.1⟩⟩
  · rw [connection_of_unpinned _ _ hpc] at hres
    obtain ⟨oc, fc1, r2, hres1, himp⟩ := htiers
    rw [hres1] at hres
    simp only [Except.ok.injEq, Prod.mk.injEq] at hres
    have := himp c hres.1
    exact ⟨this.2, Or.inl this.1⟩

/-- C7 (stable partition).  For every input, no connection is an element of both
results of `sortPreferConnections`.  With a predicate `f`, `prefer` is
`conns.filter f` (the subsequence on which `f` is true, in the original order);
if moreover `allowFallback = true`, `fallback` is the subsequence on which `f` is
false, and `prefer ++ fallback` is a permutation of `conns`.  Without a predicate,
`prefer = conns` and `fallback` is empty whatever the flag. -/
theorem stable_partition (conns : List Conn) (pref : PreferConnFunc) (fb : Bool) :
    (∀ c, ¬ (c ∈ (sortPreferConnections conns pref fb).1 ∧
        c ∈ (sortPreferConnections conns pref fb).2)) ∧
    (∀ f, pref = some f →
      (sortPreferConnections conns pref fb).1 = conns.filter f) ∧
    (∀ f, pref = some f → fb = true →
      (sortPreferConnections conns pref fb).2 = conns.filter (fun c => !f c) ∧
      ((sortPreferConnections conns pref fb).1 ++
        (sortPreferConnections conns pref fb).2).Perm conns) ∧
    (pref = none →
      (sortPreferConnections conns pref fb).1 = conns ∧
      (sortPreferConnections conns pref fb).2 = []) := by
  refine ⟨?_, ?_, ?_, ?_⟩
  · intro c hc
    cases pref with
    | none => simp [sortPreferConnections] at hc
    | some f =>
      rw [sortPrefer_some] at hc
      cases fb with
      | false => simp at hc
      | true =>
        simp only [if_true, List.mem_filter] at hc
        obtain ⟨⟨_, h1⟩, ⟨_, h2⟩⟩ := hc
        rw [h1] at h2
        simp at h2
  · intro f hf
    subst hf
    rw [sortPrefer_some]
  · intro f hf hfb
    subst hf
    subst hfb
    rw [sortPrefer_some]
    exact ⟨rfl, List.filter_append_perm f conns⟩
  · intro hf
    subst hf
    exact ⟨rfl, rfl⟩


/-- C8 (node-ID index).  The map built by `connsToNodeIDMap` has no key 0 (and a
read at 0 yields nothing); every key `k` that resolves maps to a connection of
`conns` whose node ID is `k`; every non-zero node ID occurring in `conns` is a
key; and a connection with a non-zero node ID that no later connection shares is
the value of its key (the last occurrence wins).  The function is total. -/
theorem node_id_index (conns : List Conn) :
    0 ∉ (connsToNodeIDMap conns).keys ∧
    (connsToNodeIDMap conns).get 0 = none ∧
    (∀ k c, (connsToNodeIDMap conns).get k = some c →
      c ∈ conns ∧ c.endpoint.nodeID = k) ∧
    (∀ c ∈ conns, c.endpoint.nodeID ≠ 0 →
      c.endpoint.nodeID ∈ (connsToNodeIDMap conns).keys) ∧
    (∀ pre c post, conns = pre ++ c :: post → c.endpoint.nodeID ≠ 0 →
      (∀ d ∈ post, d.endpoint.nodeID ≠ c.endpoint.nodeID) →
      (connsToNodeIDMap conns).get c.endpoint.nodeID = some c) := by
  refine ⟨?_, ?_, ?_, ?_, ?_⟩
  · intro h0
    rcases foldl_keys conns none 0 h0 with h | h
    · simp [NodeMap.keys] at h
    · exact h rfl
  · cases hg : (connsToNodeIDMap conns).get 0 with
    | none => rfl
    | some c => exact absurd rfl (get_sound conns 0 c hg).2.2
  · intro k c h
    exact ⟨(get_sound conns k c h).1, (get_sound conns k c h).2.1⟩
  · intro c hc h0
    cases hg : (connsToNodeIDMap conns).get c.endpoint.nodeID with
    | some d => exact key_of_get _ _ d hg
    | none =>
      unfold connsToNodeIDMap at hg
      rw [foldl_get] at hg
      cases hf : conns.reverse.find? (fun d => d.endpoint.nodeID == c.endpoint.nodeID) with
      | none =>
        rw [List.find?_eq_none] at hf
        have := hf c (List.mem_reverse.mpr hc)
        simp at this
      | some d => simp [hf, h0] at hg
  · intro pre c post hsplit h0 hpost
    subst hsplit
    exact get_last pre post c h0 hpost


/-- C9, counterexample to the claim as stated.  For the one-element pool
`[C(1,Banned,true)]` with `allowBanned = false` (no usable connection),
`selectRandomConnection` returns `(none, 1)`, not `(none, |conns| - 1) = (none, 0)`. -/
theorem exhausted_pool_counterexample :
    (∀ c ∈ [C 1 .Banned true], usable false c = false) ∧
    selectRandomConnection (newConnectionsState [] none false rand0) [C 1 .Banned true] false
        = .ok (none, 1, rand0) ∧
    ¬ ∃ r1, selectRandomConnection (newConnectionsState [] none false rand0)
        [C 1 .Banned true] false = .ok (none, [C 1 .Banned true].length - 1, r1) := by
  refine ⟨?_, rfl, ?_⟩
  · intro c hc
    rw [List.mem_singleton] at hc
    subst hc
    rfl
  · rintro ⟨r1, h⟩
    have heval : selectRandomConnection (newConnectionsState [] none false rand0)
        [C 1 .Banned true] false = .ok (none, 1, rand0) := rfl
    rw [heval] at h
    simp at h

/-- C9, amended (failure count of an exhausted pool).  For every list `conns` in
which no connection is usable under `allowBanned`, and every state of the random
source, `selectRandomConnection` returns `(none, |conns|)`: the sweep counts every
connection once, the one probed by the fast path included.  For the empty list
this is `(none, 0)` and the random source is left untouched. -/
theorem exhausted_pool (s : connectionsState) (conns : List Conn) (allowBanned : Bool)
    (hu : ∀ c ∈ conns, usable allowBanned c = false) :
    ∃ r1, selectRandomConnection s conns allowBanned = .ok (none, conns.length, r1) ∧
      (conns = [] → r1 = s.rand) := by
  cases conns with
  | nil => exact ⟨s.rand, rfl, fun _ => rfl⟩
  | cons x xs =>
    obtain ⟨r1, h⟩ := select_miss s (x :: xs) allowBanned (List.cons_ne_nil x xs) hu
    exact ⟨r1, h, fun hnil => absurd hnil (List.cons_ne_nil x xs)⟩

/-- Witness for C9 as amended: a pool of three unusable connections. -/
theorem exhausted_pool_witness :
    ∃ r1, selectRandomConnection (newConnectionsState [] none false
          { draws := [4], swaps := [[(0, 1), (2, 1)]] })
        [C 1 .Banned true, C 2 .Unknown true, C 3 (.Other 9) false] false
        = .ok (none, [C 1 .Banned true, C 2 .Unknown true, C 3 (.Other 9) false].length, r1) ∧
      ([C 1 .Banned true, C 2 .Unknown true, C 3 (.Other 9) false] = [] →
        r1 = (newConnectionsState [] none false
          { draws := [4], swaps := [[(0, 1), (2, 1)]] }).rand) :=
  exhausted_pool _ _ false (by
    intro c hc
    simp only [List.mem_cons, List.mem_singleton, List.not_mem_nil, or_false] at hc
    rcases hc with rfl | rfl | rfl <;> rfl)

/-- C10 (exact `failedCount` of `Connection`).  Without a pinned endpoint, for
every snapshot and every state `r` of the random source, `Connection` returns a
result whose `failedCount` is `0` if `prefer` holds a connection in state
`Online`, `Created` or `Offline`; `|prefer|` if `prefer` holds none but `fallback`
does; and `|prefer| + |fallback|` if neither does, whatever the last-attempt tier
returns. -/
theorem failed_count_exact (s : connectionsState) (r : Rand) :
    ∃ oc fc r1, Connection { s with rand := r } none = .ok (oc, fc, r1) ∧
      ((∃ c ∈ s.prefer, healthy c) → fc = 0) ∧
      ((∀ c ∈ s.prefer, ¬ healthy c) → (∃ c ∈ s.fallback, healthy c) →
        fc = s.prefer.length) ∧
      ((∀ c ∈ s.prefer, ¬ healthy c) → (∀ c ∈ s.fallback, ¬ healthy c) →
        fc = s.prefer.length + s.fallback.length) := by
  obtain ⟨oc, fc, r1, hres, hcases⟩ := connection_cases { s with rand := r }
  refine ⟨oc, fc, r1, hres, ?_⟩
  rcases hcases with ⟨c, _, hfc, hmem, hu⟩ | ⟨hall, c, _, hfc, hmem, hu⟩ |
    ⟨hall1, hall2, hfc, _⟩
  · have hh := (usable_false_iff c).mp hu
    exact ⟨fun _ => hfc, fun hp _ => absurd hh (hp c hmem),
      fun hp _ => absurd hh (hp c hmem)⟩
  · have hh := (usable_false_iff c).mp hu
    refine ⟨?_, fun _ _ => hfc, fun _ hf => absurd hh (hf c hmem)⟩
    rintro ⟨d, hd, hdh⟩
    have := hall d hd
    rw [(usable_false_iff d).mpr hdh] at this
    exact absurd this (by simp)
  · refine ⟨?_, ?_, fun _ _ => hfc⟩
    · rintro ⟨d, hd, hdh⟩
      have := hall1 d hd
      rw [(usable_false_iff d).mpr hdh] at this
      exact absurd this (by simp)
    · rintro _ ⟨d, hd, hdh⟩
      have := hall2 d hd
      rw [(usable_false_iff d).mpr hdh] at this
      exact absurd this (by simp)

end Router
